import Mathlib

/-!
Verification of the MLP-Mixer model definition (`mlp_mixer.py`, PaddleViT).

The model is a straight-line composition of tensor operations.  We embed it
shallowly:

* activations (rank-3 tensors `[batch, seq, dim]`) are nested lists of
  rationals; a tensor's shape emerges from the list lengths;
* learned parameters (weights, biases, kernels) are total functions from
  indices to rationals, with the layer dimensions carried explicitly, the way
  the framework fixes them at construction time;
* the two scalar functions that are transcendental over the rationals — the
  GELU activation and the reciprocal square root used inside layer
  normalization — are abstracted as function parameters `g, r : ℚ → ℚ`;
  no claim below depends on their values;
* the stochastic layers (dropout, stochastic depth) are embedded by their
  sampled multiplicative masks/gates, which determine the computation once the
  randomness is fixed.

Construction-time configuration (layer sizes, epsilons, initializer choices)
is embedded by a parallel family of `...Cfg` structures whose constructor
functions mirror the `__init__` methods line by line.
-/

/-! ## Rank-1/2/3 tensors and the primitive operations used by the model -/

abbrev Vec := List ℚ
abbrev Mat := List Vec
abbrev Ten3 := List Mat

/-- Sum of `f 0 + f 1 + ... + f (n-1)`. -/
def sumR (n : ℕ) (f : ℕ → ℚ) : ℚ := ((List.range n).map f).sum

/-- Dot product of two vectors (zip, multiply, sum). -/
def dot (xs ys : Vec) : ℚ := (List.zipWith (· * ·) xs ys).sum

/-- Elementwise sum of two vectors. -/
def addV (xs ys : Vec) : Vec := List.zipWith (· + ·) xs ys

/-- Elementwise sum of two matrices. -/
def addM (x y : Mat) : Mat := List.zipWith addV x y

/-- Elementwise sum of two rank-3 tensors: the tensor addition `x + h`
used for the residual connections. -/
def add3 (x y : Ten3) : Ten3 := List.zipWith addM x y

/-- Matrix transpose, driven by the row length of the matrix, as
`tensor.transpose([0, 2, 1])` acts on each element of the batch. -/
def transposeM (m : Mat) : Mat :=
  (List.range (m.headD []).length).map fun j => m.map fun row => row.getD j 0

/-- Batched transpose of the last two axes: `x.transpose([0, 2, 1])` on a
`[batch, a, b]` tensor. -/
def transpose3 (x : Ten3) : Ten3 := x.map transposeM

/-- Scale every entry of a matrix by a scalar. -/
def scaleM (c : ℚ) (m : Mat) : Mat := m.map fun row => row.map (c * ·)

/-- Mean of the entries of a vector. -/
def meanV (x : Vec) : ℚ := x.sum / (x.length : ℚ)

/-- One layer-normalized vector: `paddle.nn.LayerNorm` over the last axis
computes `weight[i] * (x[i] - mean) / sqrt(var + epsilon) + bias[i]` with the
biased variance; `r` abstracts the scalar reciprocal square root. -/
def layerNormV (r : ℚ → ℚ) (γ β : ℕ → ℚ) (eps : ℚ) (x : Vec) : Vec :=
  let μ := meanV x
  let σ2 := meanV (x.map fun t => (t - μ) ^ 2)
  (List.range x.length).map fun i => γ i * ((x.getD i 0 - μ) * r (σ2 + eps)) + β i

/-- Layer normalization over the last axis of a `[batch, seq, dim]` tensor. -/
def layerNorm3 (r : ℚ → ℚ) (γ β : ℕ → ℚ) (eps : ℚ) (x : Ten3) : Ten3 :=
  x.map fun m => m.map (layerNormV r γ β eps)

/-- Pointwise activation over a rank-3 tensor (`nn.GELU()` with abstracted
scalar function `g`). -/
def act3 (g : ℚ → ℚ) (x : Ten3) : Ten3 := x.map fun m => m.map fun row => row.map g

/-- `paddle.nn.Dropout` on a rank-3 tensor, embedded by its sampled
multiplicative mask (`0` or `1/(1-p)` per entry in train mode, all ones in
eval mode): the output entry at `(i, j, k)` is `mask i j k * x[i][j][k]`. -/
def dropout3 (mask : ℕ → ℕ → ℕ → ℚ) (x : Ten3) : Ten3 :=
  (List.range x.length).map fun i =>
    let m := x.getD i []
    (List.range m.length).map fun j =>
      let row := m.getD j []
      (List.range row.length).map fun k => mask i j k * row.getD k 0

/-- Modelled from the spec: `droppath.py` (imported as `from droppath import
DropPath`) is not among the sources; the spec describes its use as
"stochastic-depth-gated residual addition".  `DropPath` is therefore embedded
as the stochastic-depth gate: each sample of the batch is multiplied by its
sampled gate value (`0` or `1/(1-p)` in train mode, `1` in eval mode). -/
def dropPath (gate : ℕ → ℚ) (x : Ten3) : Ten3 :=
  (List.range x.length).map fun b2 => scaleM (gate b2) (x.getD b2 [])

/-- Mean over axis 1 of a `[batch, seq, dim]` tensor (`x.mean(axis=1)`),
giving a `[batch, dim]` matrix. -/
def mean1 (x : Ten3) : Mat :=
  x.map fun m =>
    (List.range (m.headD []).length).map fun d =>
      (m.map fun row => row.getD d 0).sum / (m.length : ℚ)

/-! ## Parameter-level layers and their forward passes -/

/-- A `paddle.nn.Linear(inF, outF)` layer: weight laid out `[in, out]`
(the forward pass is `y = x @ w + b`), dimensions fixed at construction. -/
structure Linear where
  inF : ℕ
  outF : ℕ
  w : ℕ → ℕ → ℚ
  b : ℕ → ℚ

/-- Forward pass of `nn.Linear` on one vector along the last axis:
`y[o] = Σ_i x[i] * w[i][o] + b[o]`. -/
def Linear.forward (L : Linear) (x : Vec) : Vec :=
  (List.range L.outF).map fun o => sumR L.inF (fun i => x.getD i 0 * L.w i o) + L.b o

/-- `nn.Linear` applied to the last axis of a rank-3 tensor. -/
def linear3 (L : Linear) (x : Ten3) : Ten3 := x.map fun m => m.map L.forward

/-- Parameters of the `Mlp` module: two linear layers (the activation and the
dropout layers hold no parameters). -/
structure Mlp where
  fc1 : Linear
  fc2 : Linear

/-- `Mlp.forward`, line by line from the source:
`x = fc1(x); x = act(x); x = dropout(x); x = fc2(x); x = dropout(x)`.
`g` is the GELU scalar function; `mask1, mask2` are the sampled masks of the
two invocations of `self.dropout`. -/
def Mlp.forward (g : ℚ → ℚ) (P : Mlp) (mask1 mask2 : ℕ → ℕ → ℕ → ℚ) (x : Ten3) : Ten3 :=
  let x1 := linear3 P.fc1 x
  let x2 := act3 g x1
  let x3 := dropout3 mask1 x2
  let x4 := linear3 P.fc2 x3
  dropout3 mask2 x4

/-- Parameters of a `MixerBlock`: two layer norms and two `Mlp`s. -/
structure MixerBlock where
  norm1γ : ℕ → ℚ
  norm1β : ℕ → ℚ
  norm1eps : ℚ
  mlp_tokens : Mlp
  norm2γ : ℕ → ℚ
  norm2β : ℕ → ℚ
  norm2eps : ℚ
  mlp_channels : Mlp

/-- The sampled randomness consumed by one `MixerBlock.forward` call: the two
dropout masks of each of the two `Mlp`s, and the gates of the two
`self.drop_path` invocations. -/
structure BlockNoise where
  tokMask1 : ℕ → ℕ → ℕ → ℚ
  tokMask2 : ℕ → ℕ → ℕ → ℚ
  chMask1 : ℕ → ℕ → ℕ → ℚ
  chMask2 : ℕ → ℕ → ℕ → ℚ
  gate1 : ℕ → ℚ
  gate2 : ℕ → ℚ

/-- `MixerBlock.forward`, line by line from the source:

`h = x; x = norm1(x); x = x.transpose([0,2,1]); x = mlp_tokens(x);`
`x = x.transpose([0,2,1]); x = drop_path(x); x = x + h;`
`h = x; x = norm2(x); x = mlp_channels(x); x = drop_path(x); x = x + h`. -/
def MixerBlock.forward (g r : ℚ → ℚ) (P : MixerBlock) (η : BlockNoise) (x : Ten3) : Ten3 :=
  let h := x
  let a1 := layerNorm3 r P.norm1γ P.norm1β P.norm1eps x
  let a2 := transpose3 a1
  let a3 := Mlp.forward g P.mlp_tokens η.tokMask1 η.tokMask2 a2
  let a4 := transpose3 a3
  let a5 := dropPath η.gate1 a4
  let xmid := add3 a5 h
  let h2 := xmid
  let b1 := layerNorm3 r P.norm2γ P.norm2β P.norm2eps xmid
  let b2 := Mlp.forward g P.mlp_channels η.chMask1 η.chMask2 b1
  let b3 := dropPath η.gate2 b2
  add3 b3 h2

/-- A `paddle.nn.Conv2D` layer with square kernel `k` and stride `s`, no
padding: weight laid out `[outC, inC, k, k]`, one bias per output channel. -/
structure Conv2D where
  inC : ℕ
  outC : ℕ
  k : ℕ
  s : ℕ
  w : ℕ → ℕ → ℕ → ℕ → ℚ
  b : ℕ → ℚ

/-- One image of the batch: a function from (channel, row, column) to the
pixel value; the spatial extent is carried separately. -/
abbrev Img := ℕ → ℕ → ℕ → ℚ

/-- Output spatial size of an unpadded convolution: `(n - k) / s + 1`.
Faithful to the framework only for `k ≤ n`: on an input smaller than the
kernel the framework raises an error (the inferred output size is not
positive), whereas truncating Nat subtraction totalizes this to `1`. -/
def convOutSize (n k s : ℕ) : ℕ := (n - k) / s + 1

/-- Forward pass of `nn.Conv2D` (no padding) on one image of spatial size
`H × W`, producing the `[outC, outH, outW]` feature map:
`out[o][i][j] = b[o] + Σ_c Σ_u Σ_v w[o][c][u][v] * img[c][i*s+u][j*s+v]`. -/
def Conv2D.forward (P : Conv2D) (H W : ℕ) (img : Img) : Ten3 :=
  (List.range P.outC).map fun o =>
    (List.range (convOutSize H P.k P.s)).map fun i =>
      (List.range (convOutSize W P.k P.s)).map fun j =>
        P.b o + sumR P.inC fun c => sumR P.k fun u => sumR P.k fun v =>
          P.w o c u v * img c (i * P.s + u) (j * P.s + v)

/-- Parameters of the optional norm layer at the end of `PatchEmbedding`
(`None` embeds the `Identity` layer used when no norm layer is given). -/
structure LNp where
  γ : ℕ → ℚ
  β : ℕ → ℚ
  eps : ℚ

/-- `self.norm(x)` inside `PatchEmbedding.forward`: `Identity` when no norm
layer was supplied, `nn.LayerNorm` over the last axis otherwise. -/
def applyOptNorm (r : ℚ → ℚ) : Option LNp → Mat → Mat
  | none, m => m
  | some L, m => m.map (layerNormV r L.γ L.β L.eps)

/-- Parameters of `PatchEmbedding`: the convolution and the optional norm
layer; `H` is the (square) input image size the module was built for. -/
structure PatchEmbedding where
  conv : Conv2D
  H : ℕ
  norm : Option LNp

/-- `PatchEmbedding.forward`, line by line from the source, on a batch of
images: `x = patch_embed(x)` (the strided convolution), then
`x = x.flatten(start_axis=2, stop_axis=-1)` (join the two spatial axes),
then `x = x.transpose([0, 2, 1])`, then `x = norm(x)`. -/
def PatchEmbedding.forward (r : ℚ → ℚ) (P : PatchEmbedding) (xs : List Img) : Ten3 :=
  xs.map fun img =>
    applyOptNorm r P.norm (transposeM ((P.conv.forward P.H P.H img).map List.flatten))

/-- Parameters of the whole `MlpMixer` model; each mixer block is paired with
the randomness its forward call consumes. -/
structure MlpMixer where
  patch_embed : PatchEmbedding
  mixer_layers : List (MixerBlock × BlockNoise)
  normγ : ℕ → ℚ
  normβ : ℕ → ℚ
  normEps : ℚ
  head : Linear

/-- `nn.Sequential` over the mixer blocks: each block consumes the previous
block's output. -/
def mixerSeq (g r : ℚ → ℚ) (Ps : List (MixerBlock × BlockNoise)) (x : Ten3) : Ten3 :=
  Ps.foldl (fun acc P => MixerBlock.forward g r P.1 P.2 acc) x

/-- `MlpMixer.forward_features`, line by line from the source:
`x = patch_embed(x); x = mixer_layers(x); x = norm(x); x = x.mean(axis=1)`. -/
def MlpMixer.forward_features (g r : ℚ → ℚ) (M : MlpMixer) (xs : List Img) : Mat :=
  let x1 := PatchEmbedding.forward r M.patch_embed xs
  let x2 := mixerSeq g r M.mixer_layers x1
  let x3 := layerNorm3 r M.normγ M.normβ M.normEps x2
  mean1 x3

/-- `MlpMixer.forward`: the features followed by the classification head
(`nn.Linear` on the pooled `[batch, embed_dim]` matrix). -/
def MlpMixer.forward (g r : ℚ → ℚ) (M : MlpMixer) (xs : List Img) : Mat :=
  (MlpMixer.forward_features g r M xs).map M.head.forward

/-! ## Construction-time configuration

The `...Cfg` structures record what each `__init__` fixes: layer dimensions,
layer-norm epsilons and parameter-initializer choices.  The `mk...` functions
mirror the `__init__` methods of the source. -/

/-- Python `int(q)` on a rational: truncation toward zero. -/
def pyInt (q : ℚ) : ℤ := q.num.tdiv q.den

/-- The initializer requested for a parameter: `paddle.nn.initializer.XavierUniform`,
`paddle.nn.initializer.Normal(std=σ)`, or the framework's built-in default
parameter attribute (used when a layer is constructed without an explicit
`weight_attr`/`bias_attr`, as `nn.Linear(embed_dim, num_classes)` is). -/
inductive ParamInit where
  | xavierUniform : ParamInit
  | normalStd (σ : ℚ) : ParamInit
  | frameworkDefault : ParamInit
deriving DecidableEq

/-- Configuration of one `nn.Linear` layer. -/
structure LinearCfg where
  inF : ℕ
  outF : ℕ
  wInit : ParamInit
  bInit : ParamInit
deriving DecidableEq

/-- Configuration of one `nn.LayerNorm` layer. -/
structure LayerNormCfg where
  normDim : ℕ
  epsilon : ℚ
deriving DecidableEq

/-- Configuration of an `Mlp` module. -/
structure MlpCfg where
  fc1 : LinearCfg
  fc2 : LinearCfg
  dropoutRate : ℚ
deriving DecidableEq

/-- `Mlp.__init__`: both linear layers take their attributes from
`_init_weights`, which requests `XavierUniform` weights and `Normal(std=1e-6)`
biases; `fc1 : in -> hidden`, `fc2 : hidden -> in`. -/
def mkMlp (in_features hidden_features : ℕ) (dropout : ℚ) : MlpCfg :=
  { fc1 := ⟨in_features, hidden_features, .xavierUniform, .normalStd (1 / 1000000)⟩
    fc2 := ⟨hidden_features, in_features, .xavierUniform, .normalStd (1 / 1000000)⟩
    dropoutRate := dropout }

/-- Configuration of one `MixerBlock`. -/
structure MixerBlockCfg where
  norm1 : LayerNormCfg
  mlp_tokens : MlpCfg
  droppathRate : ℚ
  norm2 : LayerNormCfg
  mlp_channels : MlpCfg
deriving DecidableEq

/-- `MixerBlock.__init__`: `tokens_dim = int(mlp_ratio[0] * dim)`,
`channels_dim = int(mlp_ratio[1] * dim)`, two `nn.LayerNorm(dim, epsilon=1e-6)`,
`mlp_tokens = Mlp(seq_len, tokens_dim)`, `mlp_channels = Mlp(dim, channels_dim)`. -/
def mkMixerBlock (dim seq_len : ℕ) (mlpScales : ℚ × ℚ) (dropout droppath : ℚ) :
    MixerBlockCfg :=
  let tokens_dim := (pyInt (mlpScales.1 * dim)).toNat
  let channels_dim := (pyInt (mlpScales.2 * dim)).toNat
  { norm1 := ⟨dim, 1 / 1000000⟩
    mlp_tokens := mkMlp seq_len tokens_dim dropout
    droppathRate := droppath
    norm2 := ⟨dim, 1 / 1000000⟩
    mlp_channels := mkMlp dim channels_dim dropout }

/-- Configuration of the `nn.Conv2D` inside `PatchEmbedding`
(constructed without explicit initializer attributes). -/
structure Conv2DCfg where
  inC : ℕ
  outC : ℕ
  kernel : ℕ × ℕ
  stride : ℕ × ℕ
  wInit : ParamInit
  bInit : ParamInit
deriving DecidableEq

/-- Configuration of `PatchEmbedding`. -/
structure PatchEmbeddingCfg where
  image_size : ℕ × ℕ
  patch_size : ℕ × ℕ
  patches_resolution : ℕ × ℕ
  num_patches : ℕ
  in_channels : ℕ
  embed_dim : ℕ
  patch_embed : Conv2DCfg
  norm : Option LayerNormCfg
deriving DecidableEq

/-- `PatchEmbedding.__init__`: squares the sizes, computes
`patches_resolution = [image_size // patch_size, image_size // patch_size]`
by integer floor division and `num_patches` as their product, and builds the
`Conv2D` with `kernel_size = stride = patch_size`; the norm layer defaults to
`Identity` (here `none`). -/
def mkPatchEmbedding (image_size patch_size in_channels embed_dim : ℕ)
    (norm_layer : Option LayerNormCfg) : PatchEmbeddingCfg :=
  let pr := (image_size / patch_size, image_size / patch_size)
  { image_size := (image_size, image_size)
    patch_size := (patch_size, patch_size)
    patches_resolution := pr
    num_patches := pr.1 * pr.2
    in_channels := in_channels
    embed_dim := embed_dim
    patch_embed := ⟨in_channels, embed_dim, (patch_size, patch_size),
      (patch_size, patch_size), .frameworkDefault, .frameworkDefault⟩
    norm := norm_layer }

/-- Configuration of the whole `MlpMixer` model. -/
structure MlpMixerCfg where
  num_classes : ℕ
  num_features : ℕ
  embed_dim : ℕ
  patch_embed : PatchEmbeddingCfg
  mixer_layers : List MixerBlockCfg
  norm : LayerNormCfg
  head : LinearCfg
deriving DecidableEq

/-- `MlpMixer.__init__`: the patch embedding (with the `nn.LayerNorm(embed_dim,
epsilon=1e-6)` pre-built and passed only when `patch_embed_norm` is set), the
list comprehension `[MixerBlock(embed_dim, num_patches, mlp_ratio, dropout,
droppath) for _ in range(num_mixer_layers)]` (every block gets the same
arguments), the final `nn.LayerNorm(embed_dim, epsilon=1e-6)`, and the head
`nn.Linear(embed_dim, num_classes)` built without initializer attributes. -/
def mkMlpMixer (num_classes image_size in_channels patch_size num_mixer_layers
    embed_dim : ℕ) (mlpScales : ℚ × ℚ) (dropout droppath : ℚ)
    (patch_embed_norm : Bool) : MlpMixerCfg :=
  let pe := mkPatchEmbedding image_size patch_size in_channels embed_dim
    (if patch_embed_norm then some ⟨embed_dim, 1 / 1000000⟩ else none)
  { num_classes := num_classes
    num_features := embed_dim
    embed_dim := embed_dim
    patch_embed := pe
    mixer_layers := List.replicate num_mixer_layers
      (mkMixerBlock embed_dim pe.num_patches mlpScales dropout droppath)
    norm := ⟨embed_dim, 1 / 1000000⟩
    head := ⟨embed_dim, num_classes, .frameworkDefault, .frameworkDefault⟩ }

/-- The options `build_mlp_mixer` can see on the config object.  The last
three fields are options a config file may well carry; the builder reads only
the first six. -/
structure MixerConfig where
  numClasses : ℕ
  imageSize : ℕ
  numLayers : ℕ
  hiddenSize : ℕ
  dropoutRate : ℚ
  droppathRate : ℚ
  cfgPatchSize : ℕ
  cfgInChannels : ℕ
  cfgMlpScales : ℚ × ℚ

/-- `build_mlp_mixer`, line by line from the source: it passes
`in_channels=3` and `mlp_ratio=(0.5, 4.0)` as literals, leaves `patch_size`
and `patch_embed_norm` at the Python defaults (`16` and `False`), and reads
only `NUM_CLASSES`, `IMAGE_SIZE`, `NUM_LAYERS` (`num_mixer_layers`),
`HIDDEN_SIZE` (`embed_dim`), `DROPOUT` and `DROPPATH` from the config. -/
def build_mlp_mixer (c : MixerConfig) : MlpMixerCfg :=
  mkMlpMixer c.numClasses c.imageSize 3 16 c.numLayers c.hiddenSize
    (1 / 2, 4) c.dropoutRate c.droppathRate false

/-! ## Reference computation for the patch embedding

These definitions follow the spec's words — "split each image into
non-overlapping square patches, linearly project each patch to an embedding
vector" — and exist to be compared with `PatchEmbedding.forward`. -/

/-- The flattened `p × p` patch of `img` with `C` channels at patch
coordinates `(a, b)`: entries in row-major (channel, row, column) order, the
order in which the framework flattens a `[C, p, p]` block. -/
def flattenPatch (C p : ℕ) (img : Img) (a b : ℕ) : Vec :=
  ((List.range C).map fun c =>
    ((List.range p).map fun u =>
      (List.range p).map fun v => img c (a * p + u) (b * p + v)).flatten).flatten

/-- One shared affine (linear) projection: weight rows `Wm` (one row per
output feature), bias vector `bias`, applied to a flattened patch. -/
def affineProj (Wm : Mat) (bias : Vec) (v : Vec) : Vec :=
  (List.range Wm.length).map fun d => dot (Wm.getD d []) v + bias.getD d 0

/-- Reference patch embedding, following the spec's words: split each image
into non-overlapping `p × p` patches (`q` patches per side, row-major patch
order), flatten each patch, apply the one shared affine projection, and
arrange the results as a `[batch, q*q, embed_dim]` sequence. -/
def patchEmbedRef (C p q : ℕ) (Wm : Mat) (bias : Vec) (xs : List Img) : Ten3 :=
  xs.map fun img =>
    (List.range (q * q)).map fun n =>
      affineProj Wm bias (flattenPatch C p img (n / q) (n % q))

/-- The convolution kernel for output channel `d`, flattened in the same
row-major (channel, row, column) order as `flattenPatch`: the weight row of
the per-patch projection that the strided convolution implements. -/
def flatKernel (C p : ℕ) (w : ℕ → ℕ → ℕ → ℕ → ℚ) (d : ℕ) : Vec :=
  ((List.range C).map fun c =>
    ((List.range p).map fun u =>
      (List.range p).map fun v => w d c u v).flatten).flatten

/-! ## Shape predicates -/

/-- `m` is an `S × D` matrix: `S` rows, each of length `D`. -/
def IsMat (S D : ℕ) (m : Mat) : Prop :=
  m.length = S ∧ ∀ row ∈ m, row.length = D

/-- `x` is a `[B, S, D]` tensor: `B` matrices of shape `S × D`. -/
def IsShape3 (B S D : ℕ) (x : Ten3) : Prop :=
  x.length = B ∧ ∀ m ∈ x, IsMat S D m

instance (S D : ℕ) (m : Mat) : Decidable (IsMat S D m) := by
  unfold IsMat; infer_instance

instance (B S D : ℕ) (x : Ten3) : Decidable (IsShape3 B S D x) := by
  unfold IsShape3; infer_instance

/-! ## Concrete instances used to witness theorems with hypotheses -/

/-- A concrete conv kernel. -/
def wW : ℕ → ℕ → ℕ → ℕ → ℚ := fun o c u v => (o + 2 * c + 3 * u + 5 * v + 1 : ℚ)

/-- A concrete conv bias. -/
def bW : ℕ → ℚ := fun o => (o + 7 : ℚ)

/-- A concrete image. -/
def imgW : Img := fun c i j => (10 * c + 3 * i + j : ℚ)

/-- A concrete image agreeing with `imgW` on rows and columns `< 4` and
differing on the rest. -/
def imgW2 : Img := fun c i j =>
  if 4 ≤ i ∨ 4 ≤ j then 1000 else (10 * c + 3 * i + j : ℚ)

/-- Concrete linear layers for a mixer block built for `seq_len = 2`,
`dim = 4` (token Mlp `2 → 3 → 2`, channel Mlp `4 → 5 → 4`). -/
def L1W : Linear := ⟨2, 3, fun i o => (i + o + 1 : ℚ), fun o => (o : ℚ)⟩

def L2W : Linear := ⟨3, 2, fun i o => (2 * i + o : ℚ), fun o => (o + 1 : ℚ)⟩

def Lc1W : Linear := ⟨4, 5, fun i o => (i * o : ℚ), fun _ => 1⟩

def Lc2W : Linear := ⟨5, 4, fun i o => (i + 2 * o : ℚ), fun _ => 2⟩

def blockW : MixerBlock :=
  ⟨(fun i => (i + 1 : ℚ)), (fun i => (i : ℚ)), 1 / 1000000, ⟨L1W, L2W⟩,
    (fun _ => 1), (fun _ => 0), 1 / 1000000, ⟨Lc1W, Lc2W⟩⟩

def noiseW : BlockNoise :=
  ⟨fun _ _ _ => 1, fun _ _ _ => (1 : ℚ) / 2, fun _ _ _ => 1, fun _ _ _ => 1,
    fun _ => 2, fun _ => 1⟩

/-- A concrete `[2, 2, 4]` input tensor. -/
def xinW : Ten3 := [[[1, 2, 0, 3], [4, 5, 1, 6]], [[0, 1, 2, 3], [1, 1, 1, 1]]]

/-- Concrete linear layers for a mixer block built for `seq_len = 4`,
`dim = 3` (token Mlp `4 → 2 → 4`, channel Mlp `3 → 2 → 3`). -/
def Lt1W : Linear := ⟨4, 2, fun i o => (i + o : ℚ), fun _ => 0⟩

def Lt2W : Linear := ⟨2, 4, fun i o => (i - o : ℚ), fun o => (o : ℚ)⟩

def Lch1W : Linear := ⟨3, 2, fun i o => (i + 2 * o : ℚ), fun _ => 1⟩

def Lch2W : Linear := ⟨2, 3, fun i o => (2 * i + o : ℚ), fun _ => 0⟩

def block2W : MixerBlock :=
  ⟨(fun _ => 1), (fun _ => 0), 1 / 1000000, ⟨Lt1W, Lt2W⟩,
    (fun _ => 1), (fun _ => 0), 1 / 1000000, ⟨Lch1W, Lch2W⟩⟩

def headW : Linear := ⟨3, 5, fun i o => (i + o + 1 : ℚ), fun o => (o : ℚ)⟩

/-- A concrete whole model: images `2 × 4 × 4`, patch size `2` (so 4 patches),
`embed_dim = 3`, one mixer block, a 5-class head. -/
def mixerW : MlpMixer :=
  ⟨⟨⟨2, 3, 2, 2, wW, bW⟩, 4, none⟩, [(block2W, noiseW)],
    (fun _ => 1), (fun _ => 0), 1 / 1000000, headW⟩

/-- Two concrete builder configs that agree on the six options
`build_mlp_mixer` reads and disagree on everything else. -/
def cfgAW : MixerConfig := ⟨10, 32, 2, 8, 0, 0, 16, 3, (1 / 2, 4)⟩

def cfgBW : MixerConfig := ⟨10, 32, 2, 8, 0, 0, 99, 7, (5, 9)⟩

/-! ## Helper lemmas -/

lemma getD_range_map {α : Type} (f : ℕ → α) (d : α) {i n : ℕ} (h : i < n) :
    ((List.range n).map f).getD i d = f i := by
  have h2 : i < ((List.range n).map f).length := by simpa using h
  rw [List.getD_eq_getElem _ _ h2, List.getElem_map, List.getElem_range]

lemma mem_getD {α : Type} {l : List α} {i : ℕ} (d : α) (h : i < l.length) :
    l.getD i d ∈ l := by
  rw [List.getD_eq_getElem _ _ h]
  exact l.getElem_mem h

lemma mem_of_mem_zipWith {α β γ : Type} {f : α → β → γ} :
    ∀ {l₁ : List α} {l₂ : List β} {c : γ}, c ∈ List.zipWith f l₁ l₂ →
      ∃ a ∈ l₁, ∃ b ∈ l₂, c = f a b
  | [], _, c, h => by simp at h
  | _ :: _, [], c, h => by simp at h
  | a :: l₁, b :: l₂, c, h => by
    rcases List.mem_cons.mp h with h | h
    · exact ⟨a, List.mem_cons_self .., b, List.mem_cons_self .., h⟩
    · obtain ⟨a2, ha, b2, hb, hc⟩ := mem_of_mem_zipWith h
      exact ⟨a2, List.mem_cons_of_mem _ ha, b2, List.mem_cons_of_mem _ hb, hc⟩

lemma length_layerNormV (r : ℚ → ℚ) (γ β : ℕ → ℚ) (eps : ℚ) (x : Vec) :
    (layerNormV r γ β eps x).length = x.length := by
  simp [layerNormV]

lemma length_linear_forward (L : Linear) (x : Vec) :
    (L.forward x).length = L.outF := by
  simp [Linear.forward]

lemma addV_comm (x y : Vec) : addV x y = addV y x :=
  List.zipWith_comm_of_comm _ (fun a b => add_comm a b) x y

lemma addM_comm (x y : Mat) : addM x y = addM y x :=
  List.zipWith_comm_of_comm _ addV_comm x y

lemma add3_comm (x y : Ten3) : add3 x y = add3 y x :=
  List.zipWith_comm_of_comm _ addM_comm x y

lemma sumR_succ (n : ℕ) (f : ℕ → ℚ) : sumR (n + 1) f = sumR n f + f n := by
  simp [sumR, List.range_succ]

lemma sumR_add (a b : ℕ) (f : ℕ → ℚ) :
    sumR (a + b) f = sumR a f + sumR b (fun i => f (a + i)) := by
  induction b with
  | zero => simp [sumR]
  | succ b ih => rw [Nat.add_succ, sumR_succ, ih, sumR_succ]; ring

lemma sumR_mul (m n : ℕ) (f : ℕ → ℚ) :
    sumR (m * n) f = sumR m fun a => sumR n fun b => f (a * n + b) := by
  induction m with
  | zero => simp [sumR]
  | succ m ih =>
    have hmn : (m + 1) * n = m * n + n := by ring
    rw [hmn, sumR_add, ih, sumR_succ]

lemma dot_append {a b c d : Vec} (h : a.length = b.length) :
    dot (a ++ c) (b ++ d) = dot a b + dot c d := by
  simp [dot, List.zipWith_append _ _ _ _ _ h]

lemma flatten_length_eq {α β : Type} {n : ℕ} {f : ℕ → List α} {h : ℕ → List β}
    (hl : ∀ i, (f i).length = (h i).length) :
    (((List.range n).map f).flatten).length = (((List.range n).map h).flatten).length := by
  simp only [List.length_flatten, List.map_map]
  congr 1
  exact List.map_congr_left (fun i _ => hl i)

lemma dot_flatten_range (n : ℕ) (f h : ℕ → Vec) (hl : ∀ i, (f i).length = (h i).length) :
    dot (((List.range n).map f).flatten) (((List.range n).map h).flatten)
      = sumR n fun i => dot (f i) (h i) := by
  induction n with
  | zero => simp [dot, sumR]
  | succ n ih =>
    rw [List.range_succ]
    simp only [List.map_append, List.map_cons, List.map_nil, List.flatten_append,
      List.flatten_cons, List.flatten_nil, List.append_nil]
    rw [dot_append (flatten_length_eq hl), ih, sumR_succ]

lemma dot_map_range (n : ℕ) (f h : ℕ → ℚ) :
    dot ((List.range n).map f) ((List.range n).map h) = sumR n fun i => f i * h i := by
  induction n with
  | zero => simp [dot, sumR]
  | succ n ih =>
    rw [List.range_succ]
    simp only [List.map_append, List.map_cons, List.map_nil]
    rw [dot_append (by simp), ih, sumR_succ]
    simp [dot]

lemma length_flatten_uniform {α : Type} (k : ℕ) :
    ∀ (rows : List (List α)), (∀ r ∈ rows, r.length = k) →
      rows.flatten.length = rows.length * k
  | [], _ => by simp
  | r :: rows, hr => by
    have h1 : r.length = k := hr r (List.mem_cons_self ..)
    have h2 := length_flatten_uniform k rows (fun s hs => hr s (List.mem_cons_of_mem _ hs))
    simp [List.flatten_cons, h1, h2, Nat.succ_mul]
    ring

lemma getD_flatten_uniform {k : ℕ} :
    ∀ (rows : Mat), (∀ r ∈ rows, r.length = k) → ∀ {n : ℕ}, n < rows.length * k →
      rows.flatten.getD n 0 = (rows.getD (n / k) []).getD (n % k) 0
  | [], _, n, hn => by simp at hn
  | r :: rows, hr, n, hn => by
    have hk : 0 < k := by
      rcases Nat.eq_zero_or_pos k with h0 | h0
      · rw [h0, Nat.mul_zero] at hn; exact absurd hn (Nat.not_lt_zero n)
      · exact h0
    have hrlen : r.length = k := hr r (List.mem_cons_self ..)
    rw [List.flatten_cons]
    by_cases hcase : n < k
    · rw [List.getD_append _ _ _ _ (by rw [hrlen]; exact hcase),
        Nat.div_eq_of_lt hcase, Nat.mod_eq_of_lt hcase]
      simp
    · push_neg at hcase
      have hbound : n - k < rows.length * k := by
        rw [List.length_cons, Nat.succ_mul] at hn
        omega
      have hrec := getD_flatten_uniform rows
        (fun s hs => hr s (List.mem_cons_of_mem _ hs)) hbound
      rw [List.getD_append_right _ _ _ _ (by rw [hrlen]; exact hcase), hrlen, hrec,
        Nat.div_eq_sub_div hk hcase, Nat.mod_eq_sub_mod hcase]
      simp

lemma headD_range_map {α : Type} {n : ℕ} (f : ℕ → List α) (h : 0 < n) :
    ((List.range n).map f).headD [] = f 0 := by
  obtain ⟨m, rfl⟩ : ∃ m, n = m + 1 := ⟨n - 1, by omega⟩
  rw [List.range_succ_eq_map]
  simp

lemma transposeM_getD {m : Mat} {n : ℕ} (h : n < (m.headD []).length) :
    (transposeM m).getD n [] = m.map fun row => row.getD n 0 := by
  unfold transposeM
  exact getD_range_map _ _ h

lemma sumR_congr {n : ℕ} {f g : ℕ → ℚ} (h : ∀ i, f i = g i) : sumR n f = sumR n g := by
  unfold sumR
  congr 1
  exact List.map_congr_left (fun i _ => h i)

lemma convOutSize_exact (q p : ℕ) (hp : 0 < p) (hq : 0 < q) :
    convOutSize (q * p) p p = q := by
  unfold convOutSize
  have h1 : q * p - p = (q - 1) * p := by
    rw [Nat.sub_mul, Nat.one_mul]
  rw [h1, Nat.mul_div_cancel _ hp]
  omega

lemma conv_sample_eq (C D p q : ℕ) (w : ℕ → ℕ → ℕ → ℕ → ℚ) (bias : ℕ → ℚ)
    (img : Img) (hp : 0 < p) (hq : 0 < q) (hD : 0 < D) :
    transposeM ((Conv2D.forward ⟨C, D, p, p, w, bias⟩ (q * p) (q * p) img).map List.flatten)
      = (List.range (q * q)).map fun n =>
          affineProj ((List.range D).map (flatKernel C p w)) ((List.range D).map bias)
            (flattenPatch C p img (n / q) (n % q)) := by
  have hout : convOutSize (q * p) p p = q := convOutSize_exact q p hp hq
  have hA : (Conv2D.forward ⟨C, D, p, p, w, bias⟩ (q * p) (q * p) img).map List.flatten
      = (List.range D).map fun o =>
          ((List.range q).map fun i => (List.range q).map fun j =>
            bias o + sumR C fun c => sumR p fun u => sumR p fun v =>
              w o c u v * img c (i * p + u) (j * p + v)).flatten := by
    unfold Conv2D.forward
    rw [List.map_map]
    simp [hout]
  rw [hA]
  have hrows : ∀ o : ℕ, ∀ row ∈ ((List.range q).map fun i => (List.range q).map fun j =>
      bias o + sumR C fun c => sumR p fun u => sumR p fun v =>
        w o c u v * img c (i * p + u) (j * p + v)), row.length = q := by
    intro o row hrow
    obtain ⟨i, _, rfl⟩ := List.mem_map.mp hrow
    simp
  have hlen0 : (((List.range q).map fun i => (List.range q).map fun j =>
      bias 0 + sumR C fun c => sumR p fun u => sumR p fun v =>
        w 0 c u v * img c (i * p + u) (j * p + v)).flatten).length = q * q := by
    rw [length_flatten_uniform q _ (hrows 0)]
    simp
  unfold transposeM
  rw [headD_range_map _ hD, hlen0]
  apply List.map_congr_left
  intro n hn
  have hnlt : n < q * q := List.mem_range.mp hn
  rw [List.map_map]
  unfold affineProj
  have hWlen : ((List.range D).map (flatKernel C p w)).length = D := by simp
  rw [hWlen]
  apply List.map_congr_left
  intro d hd
  have hdlt : d < D := List.mem_range.mp hd
  rw [getD_range_map _ _ hdlt, getD_range_map _ _ hdlt]
  have hdivlt : n / q < q := by
    rw [Nat.div_lt_iff_lt_mul hq]
    exact hnlt
  have hmodlt : n % q < q := Nat.mod_lt n hq
  have hflat := getD_flatten_uniform (k := q)
    ((List.range q).map fun i => (List.range q).map fun j =>
      bias d + sumR C fun c => sumR p fun u => sumR p fun v =>
        w d c u v * img c (i * p + u) (j * p + v)) (hrows d)
    (n := n) (by simpa using hnlt)
  simp only [Function.comp_apply]
  rw [hflat, getD_range_map _ _ hdivlt, getD_range_map _ _ hmodlt]
  have hdot : dot (flatKernel C p w d) (flattenPatch C p img (n / q) (n % q))
      = sumR C fun c => sumR p fun u => sumR p fun v =>
          w d c u v * img c ((n / q) * p + u) ((n % q) * p + v) := by
    unfold flatKernel flattenPatch
    rw [dot_flatten_range C _ _ (fun c => flatten_length_eq (fun u => by simp))]
    apply sumR_congr
    intro c
    rw [dot_flatten_range p _ _ (fun u => by simp)]
    apply sumR_congr
    intro u
    rw [dot_map_range]
  rw [hdot]
  exact add_comm _ _

lemma sumR_congr_lt {n : ℕ} {f g : ℕ → ℚ} (h : ∀ i, i < n → f i = g i) :
    sumR n f = sumR n g := by
  unfold sumR
  congr 1
  exact List.map_congr_left fun i hi => h i (List.mem_range.mp hi)

lemma mul_add_lt {i u q p : ℕ} (hi : i < q) (hu : u < p) : i * p + u < q * p :=
  calc i * p + u < i * p + p := by omega
  _ = (i + 1) * p := by ring
  _ ≤ q * p := Nat.mul_le_mul_right p hi

lemma convOutSize_floor (H p : ℕ) (hp : 0 < p) (hH : p ≤ H) :
    convOutSize H p p = H / p := by
  unfold convOutSize
  obtain ⟨m, rfl⟩ : ∃ m, H = m + p := ⟨H - p, by omega⟩
  rw [Nat.add_sub_cancel, Nat.add_div_right _ hp]

lemma isMat_map_layerNormV {S D : ℕ} (r : ℚ → ℚ) (γ β : ℕ → ℚ) (eps : ℚ) {m : Mat}
    (h : IsMat S D m) : IsMat S D (m.map (layerNormV r γ β eps)) := by
  obtain ⟨hlen, hrow⟩ := h
  refine ⟨by simpa using hlen, ?_⟩
  intro row hr
  obtain ⟨row0, hr0, rfl⟩ := List.mem_map.mp hr
  rw [length_layerNormV]
  exact hrow row0 hr0

lemma isMat_transposeM {S D : ℕ} {m : Mat} (h : IsMat S D m) (hS : 0 < S) :
    IsMat D S (transposeM m) := by
  obtain ⟨hlen, hrow⟩ := h
  have hhead : ((m.head?).getD []).length = D := by
    cases m with
    | nil => exfalso; simp at hlen; omega
    | cons r0 rest => simpa using hrow r0 (List.mem_cons_self ..)
  constructor
  · simp [transposeM, hhead]
  · intro row hr
    simp only [transposeM] at hr
    obtain ⟨j, _, rfl⟩ := List.mem_map.mp hr
    simp [hlen]

lemma shape_layerNorm3 {B S D : ℕ} (r : ℚ → ℚ) (γ β : ℕ → ℚ) (eps : ℚ) {x : Ten3}
    (h : IsShape3 B S D x) : IsShape3 B S D (layerNorm3 r γ β eps x) := by
  obtain ⟨hl, hm⟩ := h
  refine ⟨by simpa [layerNorm3] using hl, ?_⟩
  intro m hmm
  simp only [layerNorm3] at hmm
  obtain ⟨m0, hm0, rfl⟩ := List.mem_map.mp hmm
  exact isMat_map_layerNormV r γ β eps (hm m0 hm0)

lemma shape_transpose3 {B S D : ℕ} {x : Ten3} (h : IsShape3 B S D x) (hS : 0 < S) :
    IsShape3 B D S (transpose3 x) := by
  obtain ⟨hl, hm⟩ := h
  refine ⟨by simpa [transpose3] using hl, ?_⟩
  intro m hmm
  simp only [transpose3] at hmm
  obtain ⟨m0, hm0, rfl⟩ := List.mem_map.mp hmm
  exact isMat_transposeM (hm m0 hm0) hS

lemma shape_linear3 {B S D : ℕ} (L : Linear) {x : Ten3} (h : IsShape3 B S D x) :
    IsShape3 B S L.outF (linear3 L x) := by
  obtain ⟨hl, hm⟩ := h
  refine ⟨by simpa [linear3] using hl, ?_⟩
  intro m hmm
  simp only [linear3] at hmm
  obtain ⟨m0, hm0, rfl⟩ := List.mem_map.mp hmm
  obtain ⟨h1, h2⟩ := hm m0 hm0
  refine ⟨by simpa using h1, ?_⟩
  intro row hr
  obtain ⟨r0, hr0, rfl⟩ := List.mem_map.mp hr
  exact length_linear_forward L r0

lemma shape_act3 {B S D : ℕ} (g : ℚ → ℚ) {x : Ten3} (h : IsShape3 B S D x) :
    IsShape3 B S D (act3 g x) := by
  obtain ⟨hl, hm⟩ := h
  refine ⟨by simpa [act3] using hl, ?_⟩
  intro m hmm
  simp only [act3] at hmm
  obtain ⟨m0, hm0, rfl⟩ := List.mem_map.mp hmm
  obtain ⟨h1, h2⟩ := hm m0 hm0
  refine ⟨by simpa using h1, ?_⟩
  intro row hr
  obtain ⟨r0, hr0, rfl⟩ := List.mem_map.mp hr
  simpa using h2 r0 hr0

lemma shape_dropout3 {B S D : ℕ} (mask : ℕ → ℕ → ℕ → ℚ) {x : Ten3}
    (h : IsShape3 B S D x) : IsShape3 B S D (dropout3 mask x) := by
  obtain ⟨hl, hm⟩ := h
  refine ⟨by simpa [dropout3] using hl, ?_⟩
  intro m hmm
  simp only [dropout3] at hmm
  obtain ⟨i, hi, rfl⟩ := List.mem_map.mp hmm
  have hiB : i < x.length := List.mem_range.mp hi
  obtain ⟨hxl, hxr⟩ := hm (x.getD i []) (mem_getD [] hiB)
  refine ⟨by simpa using hxl, ?_⟩
  intro row hr
  obtain ⟨j, hj, rfl⟩ := List.mem_map.mp hr
  have hjS : j < (x.getD i []).length := List.mem_range.mp hj
  simpa using hxr ((x.getD i []).getD j []) (mem_getD [] hjS)

lemma shape_dropPath {B S D : ℕ} (gate : ℕ → ℚ) {x : Ten3}
    (h : IsShape3 B S D x) : IsShape3 B S D (dropPath gate x) := by
  obtain ⟨hl, hm⟩ := h
  refine ⟨by simpa [dropPath] using hl, ?_⟩
  intro m hmm
  simp only [dropPath] at hmm
  obtain ⟨i, hi, rfl⟩ := List.mem_map.mp hmm
  have hiB : i < x.length := List.mem_range.mp hi
  obtain ⟨hxl, hxr⟩ := hm (x.getD i []) (mem_getD [] hiB)
  refine ⟨by simpa [scaleM] using hxl, ?_⟩
  intro row hr
  simp only [scaleM] at hr
  obtain ⟨row0, hr0, rfl⟩ := List.mem_map.mp hr
  simpa using hxr row0 hr0

lemma shape_add3 {B S D : ℕ} {x y : Ten3} (hx : IsShape3 B S D x)
    (hy : IsShape3 B S D y) : IsShape3 B S D (add3 x y) := by
  obtain ⟨hxl, hxm⟩ := hx
  obtain ⟨hyl, hym⟩ := hy
  refine ⟨by simp [add3, hxl, hyl], ?_⟩
  intro m hm
  simp only [add3] at hm
  obtain ⟨a, ha, b2, hb, rfl⟩ := mem_of_mem_zipWith hm
  obtain ⟨hal, ham⟩ := hxm a ha
  obtain ⟨hbl, hbm⟩ := hym b2 hb
  refine ⟨by simp [addM, hal, hbl], ?_⟩
  intro row hr
  simp only [addM] at hr
  obtain ⟨ra, hra, rb, hrb, rfl⟩ := mem_of_mem_zipWith hr
  simp [addV, ham ra hra, hbm rb hrb]

lemma shape_mlp {B S D : ℕ} (g : ℚ → ℚ) (P : Mlp) (m1 m2 : ℕ → ℕ → ℕ → ℚ) {x : Ten3}
    (h : IsShape3 B S D x) : IsShape3 B S P.fc2.outF (Mlp.forward g P m1 m2 x) := by
  unfold Mlp.forward
  exact shape_dropout3 m2 (shape_linear3 P.fc2
    (shape_dropout3 m1 (shape_act3 g (shape_linear3 P.fc1 h))))

lemma shape_mixerBlock {B S D : ℕ} (g r : ℚ → ℚ) (P : MixerBlock) (η : BlockNoise)
    {x : Ten3} (hS : 0 < S) (hD : 0 < D)
    (htok : P.mlp_tokens.fc2.outF = S) (hch : P.mlp_channels.fc2.outF = D)
    (h : IsShape3 B S D x) : IsShape3 B S D (MixerBlock.forward g r P η x) := by
  unfold MixerBlock.forward
  have h1 := shape_layerNorm3 r P.norm1γ P.norm1β P.norm1eps h
  have h2 := shape_transpose3 h1 hS
  have h3 := shape_mlp g P.mlp_tokens η.tokMask1 η.tokMask2 h2
  rw [htok] at h3
  have h4 := shape_transpose3 h3 hD
  have h5 := shape_dropPath η.gate1 h4
  have h6 := shape_add3 h5 h
  have h7 := shape_layerNorm3 r P.norm2γ P.norm2β P.norm2eps h6
  have h8 := shape_mlp g P.mlp_channels η.chMask1 η.chMask2 h7
  rw [hch] at h8
  have h9 := shape_dropPath η.gate2 h8
  exact shape_add3 h9 h6

lemma shape_mixerSeq {B S D : ℕ} (g r : ℚ → ℚ) (Ps : List (MixerBlock × BlockNoise))
    {x : Ten3} (hS : 0 < S) (hD : 0 < D)
    (hPs : ∀ Pb ∈ Ps, Pb.1.mlp_tokens.fc2.outF = S ∧ Pb.1.mlp_channels.fc2.outF = D)
    (h : IsShape3 B S D x) : IsShape3 B S D (mixerSeq g r Ps x) := by
  induction Ps generalizing x with
  | nil => simpa [mixerSeq] using h
  | cons Pb Ps ih =>
    obtain ⟨htok, hch⟩ := hPs Pb (List.mem_cons_self ..)
    have hx2 := shape_mixerBlock g r Pb.1 Pb.2 hS hD htok hch h
    have hrest : ∀ Qb ∈ Ps, Qb.1.mlp_tokens.fc2.outF = S ∧ Qb.1.mlp_channels.fc2.outF = D :=
      fun Qb hQ => hPs Qb (List.mem_cons_of_mem _ hQ)
    simpa [mixerSeq] using ih hrest hx2

lemma shape_mean1 {B S D : ℕ} {x : Ten3} (h : IsShape3 B S D x) (hS : 0 < S) :
    IsMat B D (mean1 x) := by
  obtain ⟨hl, hm⟩ := h
  refine ⟨by simpa [mean1] using hl, ?_⟩
  intro row hr
  simp only [mean1] at hr
  obtain ⟨m, hmm, rfl⟩ := List.mem_map.mp hr
  obtain ⟨h1, h2⟩ := hm m hmm
  have hhead : ((m.head?).getD []).length = D := by
    cases m with
    | nil => exfalso; simp at h1; omega
    | cons r0 rest => simpa using h2 r0 (List.mem_cons_self ..)
  simp [hhead]

lemma shape_patchEmbedding (C D p H : ℕ) (w : ℕ → ℕ → ℕ → ℕ → ℚ) (bias : ℕ → ℚ)
    (r : ℚ → ℚ) (nrm : Option LNp) (xs : List Img)
    (hp : 0 < p) (hH : p ≤ H) (hD : 0 < D) :
    IsShape3 xs.length ((H / p) * (H / p)) D
      (PatchEmbedding.forward r ⟨⟨C, D, p, p, w, bias⟩, H, nrm⟩ xs) := by
  have hq2 : convOutSize H p p = H / p := convOutSize_floor H p hp hH
  unfold PatchEmbedding.forward
  refine ⟨by simp, ?_⟩
  intro m hm
  obtain ⟨img, _, rfl⟩ := List.mem_map.mp hm
  have hAshape : IsMat D ((H / p) * (H / p))
      ((Conv2D.forward ⟨C, D, p, p, w, bias⟩ H H img).map List.flatten) := by
    refine ⟨by simp [Conv2D.forward], ?_⟩
    intro row hr
    simp only [Conv2D.forward, List.map_map] at hr
    obtain ⟨o, _, rfl⟩ := List.mem_map.mp hr
    simp only [Function.comp_apply]
    rw [length_flatten_uniform (convOutSize H p p)]
    · simp [hq2]
    · intro s hs
      obtain ⟨i, _, rfl⟩ := List.mem_map.mp hs
      simp
  have hbase := isMat_transposeM hAshape hD
  cases nrm with
  | none => simpa [applyOptNorm] using hbase
  | some L =>
    simp only [applyOptNorm]
    exact isMat_map_layerNormV r L.γ L.β L.eps hbase

/-! ## Claim theorems -/

/-- C1: for every input tensor `x`, `MixerBlock.forward` computes exactly the
two-stage computation: first `x1 = x + DropPath(transpose(mlp_tokens(transpose(
norm1(x)))))` — the transpose swapping the patch-sequence and channel axes so
`mlp_tokens` acts across the patch-sequence axis — then the output is
`x1 + DropPath(mlp_channels(norm2(x1)))`, with exactly these two residual
additions in exactly this order. -/
theorem mixerBlock_forward_two_stage (g r : ℚ → ℚ) (P : MixerBlock) (η : BlockNoise)
    (x : Ten3) :
    MixerBlock.forward g r P η x =
      (let x1 := add3 x (dropPath η.gate1 (transpose3 (Mlp.forward g P.mlp_tokens
        η.tokMask1 η.tokMask2 (transpose3 (layerNorm3 r P.norm1γ P.norm1β P.norm1eps x)))));
       add3 x1 (dropPath η.gate2 (Mlp.forward g P.mlp_channels η.chMask1 η.chMask2
        (layerNorm3 r P.norm2γ P.norm2β P.norm2eps x1)))) := by
  simp only [MixerBlock.forward]
  rw [add3_comm x (dropPath η.gate1 (transpose3 (Mlp.forward g P.mlp_tokens
    η.tokMask1 η.tokMask2 (transpose3 (layerNorm3 r P.norm1γ P.norm1β P.norm1eps x)))))]
  exact add3_comm _ _

/-- C6: every `Mlp` forward pass is `fc1`, then GELU, then dropout, then
`fc2`, then dropout — with the activation only after the first linear layer —
and in a `MixerBlock` the token-mixing `Mlp` maps `seq_len` to hidden
dimension `int(mlp_ratio[0] * dim)` and back, while the channel-mixing `Mlp`
maps `dim` to hidden dimension `int(mlp_ratio[1] * dim)` and back. -/
theorem mlp_forward_structure_and_dims :
    (∀ (g : ℚ → ℚ) (P : Mlp) (mask1 mask2 : ℕ → ℕ → ℕ → ℚ) (x : Ten3),
      Mlp.forward g P mask1 mask2 x
        = dropout3 mask2 (linear3 P.fc2 (dropout3 mask1 (act3 g (linear3 P.fc1 x)))))
    ∧ (∀ (dim seq_len : ℕ) (mlpScales : ℚ × ℚ) (dropout droppath : ℚ),
      ((mkMixerBlock dim seq_len mlpScales dropout droppath).mlp_tokens.fc1.inF = seq_len
      ∧ (mkMixerBlock dim seq_len mlpScales dropout droppath).mlp_tokens.fc1.outF
          = (pyInt (mlpScales.1 * dim)).toNat
      ∧ (mkMixerBlock dim seq_len mlpScales dropout droppath).mlp_tokens.fc2.inF
          = (pyInt (mlpScales.1 * dim)).toNat
      ∧ (mkMixerBlock dim seq_len mlpScales dropout droppath).mlp_tokens.fc2.outF = seq_len)
      ∧ ((mkMixerBlock dim seq_len mlpScales dropout droppath).mlp_channels.fc1.inF = dim
      ∧ (mkMixerBlock dim seq_len mlpScales dropout droppath).mlp_channels.fc1.outF
          = (pyInt (mlpScales.2 * dim)).toNat
      ∧ (mkMixerBlock dim seq_len mlpScales dropout droppath).mlp_channels.fc2.inF
          = (pyInt (mlpScales.2 * dim)).toNat
      ∧ (mkMixerBlock dim seq_len mlpScales dropout droppath).mlp_channels.fc2.outF = dim)) :=
  ⟨fun _ _ _ _ _ => rfl,
   fun _ _ _ _ _ => ⟨⟨rfl, rfl, rfl, rfl⟩, rfl, rfl, rfl, rfl⟩⟩

/-- C8: a `MixerBlock` built for sequence length `S` and dimension `D`
(witnessed by the output widths of its two MLPs) maps every `[B, S, D]`
tensor to a `[B, S, D]` tensor, and consequently a whole stack of such blocks
(`nn.Sequential`) leaves the shape `[batch, num_patches, embed_dim]`
invariant. -/
theorem mixerBlock_shape_invariant :
    (∀ (g r : ℚ → ℚ) (P : MixerBlock) (η : BlockNoise) (B S D : ℕ) (x : Ten3),
      0 < S → 0 < D → P.mlp_tokens.fc2.outF = S → P.mlp_channels.fc2.outF = D →
      IsShape3 B S D x → IsShape3 B S D (MixerBlock.forward g r P η x))
    ∧ (∀ (g r : ℚ → ℚ) (Ps : List (MixerBlock × BlockNoise)) (B S D : ℕ) (x : Ten3),
      0 < S → 0 < D →
      (∀ Pb ∈ Ps, Pb.1.mlp_tokens.fc2.outF = S ∧ Pb.1.mlp_channels.fc2.outF = D) →
      IsShape3 B S D x → IsShape3 B S D (mixerSeq g r Ps x)) :=
  ⟨fun g r P η _ _ _ _ hS hD htok hch hx => shape_mixerBlock g r P η hS hD htok hch hx,
   fun g r Ps _ _ _ _ hS hD hPs hx => shape_mixerSeq g r Ps hS hD hPs hx⟩

/-- Witness for C8 at a concrete block (`seq_len = 2`, `dim = 4`) and a
concrete `[2, 2, 4]` input. -/
theorem mixerBlock_shape_invariant_witness :
    IsShape3 2 2 4 (MixerBlock.forward id id blockW noiseW xinW) :=
  mixerBlock_shape_invariant.1 id id blockW noiseW 2 2 4 xinW
    (by decide) (by decide) (by decide) (by decide) (by decide)

/-- C3: on square images of size `q*p` (divisible by the patch size `p`),
`PatchEmbedding.forward` — the strided `Conv2D` with
`kernel_size = stride = p`, flattened and transposed — is extensionally equal
to the reference computation `patchEmbedRef` that splits each image into
non-overlapping `p × p` patches, applies one shared affine projection (whose
weight rows are the flattened conv kernel and whose bias is the conv bias) to
each flattened patch, and arranges the results as `[batch, num_patches,
embed_dim]`.  The strided convolution is thus a per-patch linear projection,
not a genuine overlapping convolution. -/
theorem patchEmbedding_equals_per_patch_linear
    (C D p q : ℕ) (r : ℚ → ℚ) (w : ℕ → ℕ → ℕ → ℕ → ℚ) (bias : ℕ → ℚ)
    (xs : List Img) (hp : 0 < p) (hq : 0 < q) (hD : 0 < D) :
    PatchEmbedding.forward r ⟨⟨C, D, p, p, w, bias⟩, q * p, none⟩ xs
      = patchEmbedRef C p q ((List.range D).map (flatKernel C p w))
          ((List.range D).map bias) xs := by
  unfold PatchEmbedding.forward patchEmbedRef
  apply List.map_congr_left
  intro img _
  simp only [applyOptNorm]
  exact conv_sample_eq C D p q w bias img hp hq hD

/-- Witness for C3 at a concrete kernel, bias and image
(`C = 2`, `D = 3`, `p = 2`, `q = 2`). -/
theorem patchEmbedding_equals_per_patch_linear_witness :
    PatchEmbedding.forward id ⟨⟨2, 3, 2, 2, wW, bW⟩, 2 * 2, none⟩ [imgW]
      = patchEmbedRef 2 2 2 ((List.range 3).map (flatKernel 2 2 wW))
          ((List.range 3).map bW) [imgW] :=
  patchEmbedding_equals_per_patch_linear 2 3 2 2 id wW bW [imgW]
    (by decide) (by decide) (by decide)

/-- C9 (amended): `PatchEmbedding` computes `num_patches` as
`(image_size // patch_size)^2` by integer floor division; for every image
size `H` (divisible by the patch size or not, as long as one patch fits) the
forward pass produces exactly `(H / p)^2` patch embeddings of width
`embed_dim`; and the output depends only on the pixels inside the complete
patches — two images agreeing on rows and columns below `(H / p) * p` give
identical outputs, the trailing rows and columns being silently ignored. -/
theorem patchEmbedding_floor_division_edge_case :
    (∀ (image_size patch_size in_channels embed_dim : ℕ) (nl : Option LayerNormCfg),
      (mkPatchEmbedding image_size patch_size in_channels embed_dim nl).num_patches
        = (image_size / patch_size) * (image_size / patch_size))
    ∧ (∀ (C D p H : ℕ) (w : ℕ → ℕ → ℕ → ℕ → ℚ) (bias : ℕ → ℚ) (r : ℚ → ℚ)
        (nrm : Option LNp) (xs : List Img), 0 < p → p ≤ H → 0 < D →
        IsShape3 xs.length ((H / p) * (H / p)) D
          (PatchEmbedding.forward r ⟨⟨C, D, p, p, w, bias⟩, H, nrm⟩ xs))
    ∧ (∀ (C D p H : ℕ) (w : ℕ → ℕ → ℕ → ℕ → ℚ) (bias : ℕ → ℚ) (r : ℚ → ℚ)
        (nrm : Option LNp) (img img2 : Img), 0 < p → p ≤ H →
        (∀ c < C, ∀ i < (H / p) * p, ∀ j < (H / p) * p, img c i j = img2 c i j) →
        PatchEmbedding.forward r ⟨⟨C, D, p, p, w, bias⟩, H, nrm⟩ [img]
          = PatchEmbedding.forward r ⟨⟨C, D, p, p, w, bias⟩, H, nrm⟩ [img2]) := by
  refine ⟨fun _ _ _ _ _ => rfl, fun C D p H w bias r nrm xs hp hH hD =>
    shape_patchEmbedding C D p H w bias r nrm xs hp hH hD, ?_⟩
  intro C D p H w bias r nrm img img2 hp hH hagree
  have hq2 : convOutSize H p p = H / p := convOutSize_floor H p hp hH
  have hconv : Conv2D.forward ⟨C, D, p, p, w, bias⟩ H H img
      = Conv2D.forward ⟨C, D, p, p, w, bias⟩ H H img2 := by
    unfold Conv2D.forward
    apply List.map_congr_left
    intro o _
    apply List.map_congr_left
    intro i hi
    apply List.map_congr_left
    intro j hj
    have hilt : i < H / p := by rw [← hq2]; exact List.mem_range.mp hi
    have hjlt : j < H / p := by rw [← hq2]; exact List.mem_range.mp hj
    congr 1
    apply sumR_congr_lt
    intro c hc
    apply sumR_congr_lt
    intro u hu
    apply sumR_congr_lt
    intro v hv
    rw [hagree c hc (i * p + u) (mul_add_lt hilt hu) (j * p + v) (mul_add_lt hjlt hv)]
  unfold PatchEmbedding.forward
  simp only [List.map_cons, List.map_nil, hconv]

/-- Witness for C9 at `H = 5`, `p = 2` (not divisible: `num_patches = 4`,
last row and column of the image ignored), with two images that differ only
there. -/
theorem patchEmbedding_floor_division_edge_case_witness :
    IsShape3 1 4 3 (PatchEmbedding.forward id ⟨⟨2, 3, 2, 2, wW, bW⟩, 5, none⟩ [imgW])
    ∧ PatchEmbedding.forward id ⟨⟨2, 3, 2, 2, wW, bW⟩, 5, none⟩ [imgW]
      = PatchEmbedding.forward id ⟨⟨2, 3, 2, 2, wW, bW⟩, 5, none⟩ [imgW2] :=
  ⟨patchEmbedding_floor_division_edge_case.2.1 2 3 2 5 wW bW id none [imgW]
    (by decide) (by decide) (by decide),
   patchEmbedding_floor_division_edge_case.2.2 2 3 2 5 wW bW id none imgW imgW2
    (by decide) (by decide)
    (by
      intro c hc i hi j hj
      have h4 : ¬ (4 ≤ i ∨ 4 ≤ j) := by
        have hi4 : i < 4 := hi
        have hj4 : j < 4 := hj
        omega
      simp [imgW, imgW2, h4])⟩

/-- Counterexample to C9 as stated: the claim covers every `image_size` and
`patch_size`, but with `image_size = 2 < 3 = patch_size` the computed
`num_patches` is `0` while the forward pass does not produce a sequence of
`0` patch embeddings: the convolution here would have a non-positive output
size, which the framework rejects, and the totalized embedding yields one
output position per sample rather than zero. -/
theorem patchEmbedding_small_image_counterexample :
    (mkPatchEmbedding 2 3 1 1 none).num_patches = 0
    ∧ ((PatchEmbedding.forward id ⟨⟨1, 1, 3, 3, wW, bW⟩, 2, none⟩ [imgW]).getD 0 []).length
        = 1
    ∧ ¬ IsShape3 1 0 1
        (PatchEmbedding.forward id ⟨⟨1, 1, 3, 3, wW, bW⟩, 2, none⟩ [imgW]) := by
  refine ⟨rfl, by decide, by decide⟩

/-- C2: `MlpMixer.forward(x)` equals
`head(mean(norm(mixer_layers(patch_embed(x))), axis=1))` — final layer norm
first, then average pooling over the patch-sequence axis, then the linear
classification head — and on a batch of images the output is a
`[batch, num_classes]` matrix (`num_classes` being the head's output width). -/
theorem mlpMixer_forward_decomposition :
    (∀ (g r : ℚ → ℚ) (M : MlpMixer) (xs : List Img),
      MlpMixer.forward g r M xs
        = (mean1 (layerNorm3 r M.normγ M.normβ M.normEps
            (mixerSeq g r M.mixer_layers
              (PatchEmbedding.forward r M.patch_embed xs)))).map M.head.forward)
    ∧ (∀ (g r : ℚ → ℚ) (C D p H : ℕ) (w : ℕ → ℕ → ℕ → ℕ → ℚ) (bias : ℕ → ℚ)
        (nrm : Option LNp) (blocks : List (MixerBlock × BlockNoise))
        (nγ nβ : ℕ → ℚ) (neps : ℚ) (head : Linear) (xs : List Img),
        0 < p → p ≤ H → 0 < D →
        (∀ Pb ∈ blocks, Pb.1.mlp_tokens.fc2.outF = (H / p) * (H / p)
          ∧ Pb.1.mlp_channels.fc2.outF = D) →
        IsMat xs.length head.outF
          (MlpMixer.forward g r
            ⟨⟨⟨C, D, p, p, w, bias⟩, H, nrm⟩, blocks, nγ, nβ, neps, head⟩ xs)) := by
  constructor
  · intro g r M xs
    rfl
  · intro g r C D p H w bias nrm blocks nγ nβ neps head xs hp hH hD hblocks
    have hS : 0 < (H / p) * (H / p) := by
      have h1 : 1 ≤ H / p := (Nat.one_le_div_iff hp).mpr hH
      exact Nat.mul_pos h1 h1
    have h1 := shape_patchEmbedding C D p H w bias r nrm xs hp hH hD
    have h2 := shape_mixerSeq g r blocks hS hD hblocks h1
    have h3 := shape_layerNorm3 r nγ nβ neps h2
    obtain ⟨hl, hrow⟩ := shape_mean1 h3 hS
    simp only [MlpMixer.forward, MlpMixer.forward_features]
    refine ⟨by simpa using hl, ?_⟩
    intro row hr
    obtain ⟨r0, hr0, rfl⟩ := List.mem_map.mp hr
    exact length_linear_forward head r0

/-- Witness for C2 at the concrete model `mixerW` (4 patches, `embed_dim 3`,
one mixer block, 5 classes) and a singleton image batch: the output is a
`[1, 5]` matrix. -/
theorem mlpMixer_forward_decomposition_witness :
    IsMat 1 5 (MlpMixer.forward id id mixerW [imgW]) :=
  mlpMixer_forward_decomposition.2 id id 2 3 2 4 wW bW none [(block2W, noiseW)]
    (fun _ => 1) (fun _ => 0) (1 / 1000000) headW [imgW]
    (by decide) (by decide) (by decide)
    (by
      intro Pb hPb
      rw [List.mem_singleton.mp hPb]
      exact ⟨rfl, rfl⟩)

/-- C4 (amended): every linear layer inside an `Mlp` of the constructed model
— both layers of every token-mixing MLP and of every channel-mixing MLP — is
configured with Xavier-uniform weight initialization and `Normal(std=1e-6)`
bias initialization, but the final classification head is constructed
without explicit initializer attributes and keeps the framework default. -/
theorem mlp_linear_inits_and_head_default (num_classes image_size in_channels patch_size
    num_mixer_layers embed_dim : ℕ) (mlpScales : ℚ × ℚ) (dropout droppath : ℚ)
    (patch_embed_norm : Bool) :
    (∀ blk ∈ (mkMlpMixer num_classes image_size in_channels patch_size num_mixer_layers
        embed_dim mlpScales dropout droppath patch_embed_norm).mixer_layers,
      blk.mlp_tokens.fc1.wInit = ParamInit.xavierUniform
      ∧ blk.mlp_tokens.fc1.bInit = ParamInit.normalStd (1 / 1000000)
      ∧ blk.mlp_tokens.fc2.wInit = ParamInit.xavierUniform
      ∧ blk.mlp_tokens.fc2.bInit = ParamInit.normalStd (1 / 1000000)
      ∧ blk.mlp_channels.fc1.wInit = ParamInit.xavierUniform
      ∧ blk.mlp_channels.fc1.bInit = ParamInit.normalStd (1 / 1000000)
      ∧ blk.mlp_channels.fc2.wInit = ParamInit.xavierUniform
      ∧ blk.mlp_channels.fc2.bInit = ParamInit.normalStd (1 / 1000000))
    ∧ (mkMlpMixer num_classes image_size in_channels patch_size num_mixer_layers
        embed_dim mlpScales dropout droppath patch_embed_norm).head.wInit
        = ParamInit.frameworkDefault
    ∧ (mkMlpMixer num_classes image_size in_channels patch_size num_mixer_layers
        embed_dim mlpScales dropout droppath patch_embed_norm).head.bInit
        = ParamInit.frameworkDefault := by
  refine ⟨?_, rfl, rfl⟩
  intro blk hblk
  simp only [mkMlpMixer] at hblk
  rw [List.eq_of_mem_replicate hblk]
  exact ⟨rfl, rfl, rfl, rfl, rfl, rfl, rfl, rfl⟩

/-- Witness for the amended C4: a block of the default-sized model has the
explicitly configured initializers, and its head has the framework default. -/
theorem mlp_linear_inits_and_head_default_witness :
    (mkMixerBlock 512 196 (1 / 2, 4) 0 0).mlp_tokens.fc1.wInit = ParamInit.xavierUniform
    ∧ (mkMlpMixer 1000 224 3 16 8 512 (1 / 2, 4) 0 0 false).head.wInit
        = ParamInit.frameworkDefault := by
  have h := mlp_linear_inits_and_head_default 1000 224 3 16 8 512 (1 / 2, 4) 0 0 false
  exact ⟨(h.1 (mkMixerBlock 512 196 (1 / 2, 4) 0 0)
    (List.mem_replicate.mpr ⟨by decide, rfl⟩)).1, h.2.1⟩

/-- Counterexample to C4 as stated: the classification head of the
default-sized constructed model is not configured with Xavier-uniform
weights and `Normal(std=1e-6)` bias — `nn.Linear(embed_dim, num_classes)` is
built without initializer attributes. -/
theorem head_init_counterexample :
    ¬ ((mkMlpMixer 1000 224 3 16 8 512 (1 / 2, 4) 0 0 false).head.wInit
          = ParamInit.xavierUniform
      ∧ (mkMlpMixer 1000 224 3 16 8 512 (1 / 2, 4) 0 0 false).head.bInit
          = ParamInit.normalStd (1 / 1000000)) := by
  intro h
  exact ParamInit.noConfusion h.1

/-- C5: `MlpMixer` builds exactly `num_mixer_layers` mixer blocks, all with
the same configuration (`embed_dim`, the patch embedding's `num_patches` as
sequence length, the same `mlp_ratio`, dropout and droppath rates), and
`nn.Sequential` applies them sequentially, each block consuming the previous
block's output. -/
theorem mixer_layers_identical_and_sequential :
    (∀ (num_classes image_size in_channels patch_size num_mixer_layers embed_dim : ℕ)
       (mlpScales : ℚ × ℚ) (dropout droppath : ℚ) (patch_embed_norm : Bool),
      (mkMlpMixer num_classes image_size in_channels patch_size num_mixer_layers embed_dim
          mlpScales dropout droppath patch_embed_norm).mixer_layers
        = List.replicate num_mixer_layers
            (mkMixerBlock embed_dim
              ((image_size / patch_size) * (image_size / patch_size))
              mlpScales dropout droppath)
      ∧ (mkMlpMixer num_classes image_size in_channels patch_size num_mixer_layers embed_dim
          mlpScales dropout droppath patch_embed_norm).mixer_layers.length
          = num_mixer_layers
      ∧ ∀ blk ∈ (mkMlpMixer num_classes image_size in_channels patch_size num_mixer_layers
          embed_dim mlpScales dropout droppath patch_embed_norm).mixer_layers,
          blk = mkMixerBlock embed_dim
            ((image_size / patch_size) * (image_size / patch_size))
            mlpScales dropout droppath)
    ∧ (∀ (g r : ℚ → ℚ) (Pb : MixerBlock × BlockNoise) (Ps : List (MixerBlock × BlockNoise))
        (x : Ten3),
        mixerSeq g r (Pb :: Ps) x = mixerSeq g r Ps (MixerBlock.forward g r Pb.1 Pb.2 x))
    ∧ (∀ (g r : ℚ → ℚ) (x : Ten3), mixerSeq g r [] x = x) := by
  refine ⟨?_, fun g r Pb Ps x => by simp only [mixerSeq, List.foldl_cons],
    fun g r x => rfl⟩
  intro num_classes image_size in_channels patch_size num_mixer_layers embed_dim
    mlpScales dropout droppath patch_embed_norm
  refine ⟨rfl, by simp [mkMlpMixer], ?_⟩
  intro blk hblk
  exact List.eq_of_mem_replicate (by simpa [mkMlpMixer, mkPatchEmbedding] using hblk)

/-- Witness for C5: a model with 3 layers has 3 blocks, and a member block
equals the block configuration built from the shared arguments. -/
theorem mixer_layers_identical_and_sequential_witness :
    (mkMlpMixer 10 8 3 4 3 6 (1 / 2, 4) 0 0 false).mixer_layers.length = 3
    ∧ mkMixerBlock 6 4 (1 / 2, 4) 0 0
        = mkMixerBlock 6 ((8 / 4) * (8 / 4)) (1 / 2, 4) 0 0 := by
  have h := mixer_layers_identical_and_sequential.1 10 8 3 4 3 6 (1 / 2, 4) 0 0 false
  exact ⟨h.2.1, h.2.2 (mkMixerBlock 6 4 (1 / 2, 4) 0 0)
    (List.mem_replicate.mpr ⟨by decide, rfl⟩)⟩

/-- C7: every layer-normalization layer of the constructed model — `norm1`
and `norm2` of every mixer block, the final norm, and the patch-embedding
norm when enabled — is constructed with epsilon exactly `1e-6`. -/
theorem layerNorm_epsilon_1e6 (num_classes image_size in_channels patch_size
    num_mixer_layers embed_dim : ℕ) (mlpScales : ℚ × ℚ) (dropout droppath : ℚ)
    (patch_embed_norm : Bool) :
    (∀ blk ∈ (mkMlpMixer num_classes image_size in_channels patch_size num_mixer_layers
        embed_dim mlpScales dropout droppath patch_embed_norm).mixer_layers,
      blk.norm1.epsilon = 1 / 1000000 ∧ blk.norm2.epsilon = 1 / 1000000)
    ∧ (mkMlpMixer num_classes image_size in_channels patch_size num_mixer_layers
        embed_dim mlpScales dropout droppath patch_embed_norm).norm.epsilon = 1 / 1000000
    ∧ (∀ L, (mkMlpMixer num_classes image_size in_channels patch_size num_mixer_layers
        embed_dim mlpScales dropout droppath patch_embed_norm).patch_embed.norm = some L →
        L.epsilon = 1 / 1000000) := by
  refine ⟨?_, rfl, ?_⟩
  · intro blk hblk
    simp only [mkMlpMixer] at hblk
    rw [List.eq_of_mem_replicate hblk]
    exact ⟨rfl, rfl⟩
  · intro L hL
    cases patch_embed_norm with
    | false => exact Option.noConfusion hL
    | true =>
      have h2 : (⟨embed_dim, 1 / 1000000⟩ : LayerNormCfg) = L := Option.some.inj hL
      rw [← h2]

/-- Witness for C7 at the default-sized model with the patch-embedding norm
enabled. -/
theorem layerNorm_epsilon_1e6_witness :
    (mkMixerBlock 512 196 (1 / 2, 4) 0 0).norm1.epsilon = 1 / 1000000
    ∧ (mkMlpMixer 1000 224 3 16 8 512 (1 / 2, 4) 0 0 true).norm.epsilon = 1 / 1000000
    ∧ (⟨512, 1 / 1000000⟩ : LayerNormCfg).epsilon = 1 / 1000000 := by
  have h := layerNorm_epsilon_1e6 1000 224 3 16 8 512 (1 / 2, 4) 0 0 true
  exact ⟨(h.1 (mkMixerBlock 512 196 (1 / 2, 4) 0 0)
      (List.mem_replicate.mpr ⟨by decide, rfl⟩)).1,
    h.2.1, h.2.2 ⟨512, 1 / 1000000⟩ rfl⟩

/-- C10: `build_mlp_mixer` fixes `in_channels = 3`, `patch_size = 16` (the
constructor default) and `mlp_ratio = (0.5, 4.0)` for every config, reads
only the six options `NUM_CLASSES`, `IMAGE_SIZE`, `NUM_LAYERS`,
`HIDDEN_SIZE`, `DROPOUT`, `DROPPATH`, and in particular two configs agreeing
on those six fields produce identical models whatever their other fields
say. -/
theorem build_mlp_mixer_fixed_options :
    (∀ c : MixerConfig,
      (build_mlp_mixer c).patch_embed.in_channels = 3
      ∧ (build_mlp_mixer c).patch_embed.patch_size = (16, 16)
      ∧ (build_mlp_mixer c).num_classes = c.numClasses
      ∧ (build_mlp_mixer c).patch_embed.image_size = (c.imageSize, c.imageSize)
      ∧ (build_mlp_mixer c).embed_dim = c.hiddenSize
      ∧ (build_mlp_mixer c).mixer_layers
          = List.replicate c.numLayers
              (mkMixerBlock c.hiddenSize ((c.imageSize / 16) * (c.imageSize / 16))
                (1 / 2, 4) c.dropoutRate c.droppathRate)
      ∧ (build_mlp_mixer c).patch_embed.norm = none)
    ∧ (∀ c1 c2 : MixerConfig, c1.numClasses = c2.numClasses → c1.imageSize = c2.imageSize →
        c1.numLayers = c2.numLayers → c1.hiddenSize = c2.hiddenSize →
        c1.dropoutRate = c2.dropoutRate → c1.droppathRate = c2.droppathRate →
        build_mlp_mixer c1 = build_mlp_mixer c2) := by
  refine ⟨fun c => ⟨rfl, rfl, rfl, rfl, rfl, rfl, rfl⟩, ?_⟩
  intro c1 c2 h1 h2 h3 h4 h5 h6
  unfold build_mlp_mixer
  rw [h1, h2, h3, h4, h5, h6]

/-- Witness for C10: two configs that agree on the six read options but
disagree on `PATCH_SIZE`, `IN_CHANNELS` and the MLP scales build the same
model. -/
theorem build_mlp_mixer_fixed_options_witness :
    build_mlp_mixer cfgAW = build_mlp_mixer cfgBW :=
  build_mlp_mixer_fixed_options.2 cfgAW cfgBW rfl rfl rfl rfl rfl rfl
